import Mathlib

/-!
Verification of the conversational RAG chatbot serving pipeline
(`src/utils/cache.py`, `src/utils/retry.py`, `src/utils/monitoring.py`,
`src/utils/validation.py`, `src/rag_pipeline.py`, `src/main.py`,
`src/web/backend/main.py`).

Each Python component is shallowly embedded as an executable Lean
definition that mirrors the source control flow.  Timestamps (Python
`time.time()` floats) are modelled as exact rationals; Python `int` is
modelled as `Int`/`Nat`.
-/

set_option maxRecDepth 4000

namespace ChatbotRAG

/-! ## Conversation cache (`src/utils/cache.py`, class `SimpleCache`)

A Python `dict` keyed by strings is modelled as an association list in
insertion order: assignment to an existing key replaces the entry in
place, assignment to a fresh key appends. -/

/-- One cache entry: `{'value': ..., 'expires_at': time.time() + ttl}`. -/
structure CacheEntry where
  value : String
  expires_at : ℚ
  deriving Repr, DecidableEq

/-- `self.cache[key] = entry` on a Python dict: replace in place or append. -/
def assocSet : List (String × CacheEntry) → String → CacheEntry → List (String × CacheEntry)
  | [], k, e => [(k, e)]
  | (k', e') :: rest, k, e =>
      if k' = k then (k, e) :: rest else (k', e') :: assocSet rest k e

/-- `self.cache[key]` lookup (`key in self.cache` test plus read). -/
def assocFind : List (String × CacheEntry) → String → Option CacheEntry
  | [], _ => none
  | (k', e') :: rest, k => if k' = k then some e' else assocFind rest k

/-- `del self.cache[key]`. -/
def assocErase : List (String × CacheEntry) → String → List (String × CacheEntry)
  | [], _ => []
  | (k', e') :: rest, k => if k' = k then rest else (k', e') :: assocErase rest k

/-- State of `SimpleCache`: the backing dict and the `default_ttl`
constructor argument (3600 for the module-level global instance). -/
structure SimpleCache where
  cache : List (String × CacheEntry)
  default_ttl : Int
  deriving Repr, DecidableEq

namespace SimpleCache

/-- `SimpleCache.get(key)` at wall-clock time `now`.  Returns the hit (if
any) together with the possibly-updated cache state: an entry with
`now > expires_at` is deleted and reported as a miss. -/
def get (c : SimpleCache) (now : ℚ) (key : String) : Option String × SimpleCache :=
  match assocFind c.cache key with
  | none => (none, c)
  | some entry =>
      if now > entry.expires_at then
        (none, { c with cache := assocErase c.cache key })
      else
        (some entry.value, c)

/-- `SimpleCache.set(key, value, ttl)` at wall-clock time `now`.
`ttl = ttl or self.default_ttl`: both `None` and `0` are falsy in Python,
so both fall back to the default. -/
def set (c : SimpleCache) (now : ℚ) (key value : String) (ttl : Option Int) : SimpleCache :=
  let t : Int :=
    match ttl with
    | none => c.default_ttl
    | some t => if t = 0 then c.default_ttl else t
  { c with cache := assocSet c.cache key { value := value, expires_at := now + (t : ℚ) } }

/-- `SimpleCache.size()`. -/
def size (c : SimpleCache) : Nat := c.cache.length

/-- `SimpleCache.clear()`. -/
def clear (c : SimpleCache) : SimpleCache := { c with cache := [] }

end SimpleCache

/-- Lookup after an in-place dict assignment finds the new entry. -/
theorem assocFind_assocSet (l : List (String × CacheEntry)) (k : String) (e : CacheEntry) :
    assocFind (assocSet l k e) k = some e := by
  induction l with
  | nil => simp [assocSet, assocFind]
  | cons p rest ih =>
      obtain ⟨k', e'⟩ := p
      by_cases h : k' = k
      · simp [assocSet, assocFind, h]
      · simp [assocSet, assocFind, h, ih]

/-- Deleting a present key shrinks the dict by exactly one entry. -/
theorem length_assocErase (l : List (String × CacheEntry)) (k : String)
    (h : assocFind l k ≠ none) :
    (assocErase l k).length + 1 = l.length := by
  induction l with
  | nil => simp [assocFind] at h
  | cons p rest ih =>
      obtain ⟨k', e'⟩ := p
      by_cases hk : k' = k
      · simp [assocErase, hk]
      · simp only [assocFind, hk, if_false] at h
        simp [assocErase, hk, ih h]

/-- C8: for every key `k`, value `v` and (positive) ttl: after
`set(k, v, ttl)`, an immediate `get(k)` returns `v`; once the ttl has
elapsed (`now + ttl < later`), `get(k)` returns a miss, the entry is
evicted, and `size()` decreases by one. -/
theorem C8_cache_set_get_ttl (c : SimpleCache) (now later : ℚ) (k v : String) (ttl : Int)
    (hpos : 0 < ttl) (helapsed : now + (ttl : ℚ) < later) :
    (((c.set now k v (some ttl)).get now k).1 = some v) ∧
    (((c.set now k v (some ttl)).get later k).1 = none) ∧
    (((c.set now k v (some ttl)).get later k).2.size + 1 = (c.set now k v (some ttl)).size) := by
  have httl : ttl ≠ 0 := by omega
  have hfind : assocFind (c.set now k v (some ttl)).cache k
      = some ⟨v, now + (ttl : ℚ)⟩ := by
    simp [SimpleCache.set, httl, assocFind_assocSet]
  have hnotexp : ¬ now > now + (ttl : ℚ) := by
    have h0 : (0 : ℚ) < (ttl : ℚ) := by exact_mod_cast hpos
    linarith
  refine ⟨?_, ?_, ?_⟩
  · simp [SimpleCache.get, hfind, hnotexp]
  · simp [SimpleCache.get, hfind, helapsed]
  · have hne : assocFind (c.set now k v (some ttl)).cache k ≠ none := by simp [hfind]
    simp only [SimpleCache.get, hfind, helapsed, if_pos, SimpleCache.size]
    exact length_assocErase _ _ hne

/-- Witness for C8 at a concrete cache, key, value and ttl. -/
theorem C8_cache_set_get_ttl_witness :
    ((0 : Int) < 60) ∧ ((0 : ℚ) + ((60 : Int) : ℚ) < 100) ∧
    ((((SimpleCache.mk [] 3600).set 0 "k" "v" (some 60)).get 0 "k").1 = some "v") ∧
    ((((SimpleCache.mk [] 3600).set 0 "k" "v" (some 60)).get 100 "k").1 = none) ∧
    ((((SimpleCache.mk [] 3600).set 0 "k" "v" (some 60)).get 100 "k").2.size + 1
      = ((SimpleCache.mk [] 3600).set 0 "k" "v" (some 60)).size) := by
  have h := C8_cache_set_get_ttl (SimpleCache.mk [] 3600) 0 100 "k" "v" 60
    (by norm_num) (by norm_num)
  exact ⟨by norm_num, by norm_num, h.1, h.2.1, h.2.2⟩

/-- C5 counterexample: `set` with the explicit argument `ttl = 10` stores an
entry expiring 10 seconds after `now` — the stored time-to-live is *not*
raised to the claimed floor of 60 seconds (no capping exists in
`SimpleCache.set`). -/
theorem C5_counterexample :
    ((SimpleCache.mk [] 3600).set 0 "k" "v" (some 10)).cache
      = [("k", { value := "v", expires_at := 10 })] ∧ ¬ (60 ≤ (10 : Int)) := by
  refine ⟨?_, by decide⟩
  simp [SimpleCache.set, assocSet]

/-- C5 amended: `set` stores the explicit nonzero `ttl` exactly as given —
no capping to `[60, 86400]` is applied — and when `ttl` is omitted (or is
the falsy value `0`) the entry's time-to-live is the cache's
`default_ttl`.  (The `[60, 86400]` bounds exist only as a pydantic
constraint on the `cache_ttl` settings field, which `SimpleCache.set`
never consults.) -/
theorem C5_set_ttl_uncapped (c : SimpleCache) (now : ℚ) (k v : String) (t : Int)
    (ht : t ≠ 0) :
    assocFind (c.set now k v (some t)).cache k = some ⟨v, now + (t : ℚ)⟩ ∧
    assocFind (c.set now k v none).cache k = some ⟨v, now + (c.default_ttl : ℚ)⟩ ∧
    assocFind (c.set now k v (some 0)).cache k = some ⟨v, now + (c.default_ttl : ℚ)⟩ := by
  refine ⟨?_, ?_, ?_⟩ <;> simp [SimpleCache.set, ht, assocFind_assocSet]

/-- Witness for C5's amended theorem at `ttl = 10`. -/
theorem C5_set_ttl_uncapped_witness :
    ((10 : Int) ≠ 0) ∧
    assocFind ((SimpleCache.mk [] 3600).set 0 "k" "v" (some 10)).cache "k"
      = some ⟨"v", 0 + ((10 : Int) : ℚ)⟩ := by
  exact ⟨by decide, (C5_set_ttl_uncapped (SimpleCache.mk [] 3600) 0 "k" "v" 10 (by decide)).1⟩

/-! ## Retry executor (`src/utils/retry.py`, `retry_with_backoff`)

The decorated call is modelled by the outcome of each attempt
(`op i` = result of the `i`-th invocation of the wrapped function) and a
predicate saying which errors are caught by the `exceptions` tuple.  The
claim under check counts invocations and `time.sleep` calls, so the trace
records both; the numeric backoff/jitter value of each delay is not
modelled (the claim does not mention it). -/

/-- How a `retry_with_backoff`-wrapped call can end. -/
inductive RetryOutcome (E A : Type) where
  /-- The wrapped function returned. -/
  | ok (v : A)
  /-- `RetryError` raised `from` the last caught exception (`none` only
  when `max_attempts = 0` and the `for` loop never ran). -/
  | exhausted (last : Option E)
  /-- An exception not matched by the `exceptions` tuple escapes uncaught. -/
  | propagated (e : E)
  deriving Repr, DecidableEq

/-- Observable trace of one wrapped call: the outcome, the number of
invocations of the wrapped function, and the number of `time.sleep`s. -/
structure RetryTrace (E A : Type) where
  outcome : RetryOutcome E A
  calls : Nat
  sleeps : Nat
  deriving Repr, DecidableEq

/-- The `for attempt in range(max_attempts)` loop, with `fuel` the number
of loop iterations still available (`fuel + attempt = max_attempts`), and
`last` the current `last_exception`. -/
def retryLoop (op : Nat → Except E A) (retryable : E → Bool) (max_attempts : Nat) :
    Nat → Nat → Option E → RetryTrace E A
  | 0, _, last => ⟨.exhausted last, 0, 0⟩
  | fuel + 1, attempt, _ =>
      match op attempt with
      | .ok v => ⟨.ok v, 1, 0⟩
      | .error e =>
          if retryable e then
            if attempt = max_attempts - 1 then ⟨.exhausted (some e), 1, 0⟩
            else
              let t := retryLoop op retryable max_attempts fuel (attempt + 1) (some e)
              ⟨t.outcome, t.calls + 1, t.sleeps + 1⟩
          else ⟨.propagated e, 1, 0⟩

/-- `retry_with_backoff(max_attempts=n, ...)` applied to a function whose
`i`-th invocation behaves as `op i`. -/
def retry_with_backoff (op : Nat → Except E A) (retryable : E → Bool) (max_attempts : Nat) :
    RetryTrace E A :=
  retryLoop op retryable max_attempts max_attempts 0 none

/-- Loop invariant for the succeed-on-last-allowed-attempt scenario. -/
theorem retryLoop_success (op : Nat → Except E A) (retryable : E → Bool) (n : Nat) (v : A) :
    ∀ fuel attempt last, fuel + attempt = n → 1 ≤ fuel →
    (∀ i, attempt ≤ i → i < n - 1 → ∃ e, op i = .error e ∧ retryable e = true) →
    op (n - 1) = .ok v →
    retryLoop op retryable n fuel attempt last = ⟨.ok v, fuel, fuel - 1⟩ := by
  intro fuel
  induction fuel with
  | zero => intro attempt last hsum hf; omega
  | succ f ih =>
      intro attempt last hsum _ hfail hsucc
      by_cases hf0 : f = 0
      · subst hf0
        have ha : attempt = n - 1 := by omega
        simp only [retryLoop, ha, hsucc]
      · have hlt : attempt < n - 1 := by omega
        obtain ⟨e, hop, hr⟩ := hfail attempt (Nat.le_refl _) hlt
        have hne : attempt ≠ n - 1 := by omega
        have hrec := ih (attempt + 1) (some e) (by omega) (by omega)
          (fun i hi1 hi2 => hfail i (by omega) hi2) hsucc
        simp only [retryLoop, hop, hr, if_true, hne, if_false, hrec]
        exact congrArg _ (by omega)

/-- Loop invariant for the always-failing scenario. -/
theorem retryLoop_exhaust (op : Nat → Except E A) (retryable : E → Bool) (n : Nat)
    (e : Nat → E) :
    ∀ fuel attempt last, fuel + attempt = n → 1 ≤ fuel →
    (∀ i, attempt ≤ i → i < n → op i = .error (e i) ∧ retryable (e i) = true) →
    retryLoop op retryable n fuel attempt last
      = ⟨.exhausted (some (e (n - 1))), fuel, fuel - 1⟩ := by
  intro fuel
  induction fuel with
  | zero => intro attempt last hsum hf; omega
  | succ f ih =>
      intro attempt last hsum _ hfail
      obtain ⟨hop, hr⟩ := hfail attempt (Nat.le_refl _) (by omega)
      by_cases hf0 : f = 0
      · subst hf0
        have ha : attempt = n - 1 := by omega
        rw [ha] at hop hr
        simp only [retryLoop, ha, hop, hr, if_true, if_pos rfl]
      · have hne : attempt ≠ n - 1 := by omega
        have hrec := ih (attempt + 1) (some (e attempt)) (by omega) (by omega)
          (fun i hi1 hi2 => hfail i (by omega) hi2)
        simp only [retryLoop, hop, hr, if_true, hne, if_false, hrec]
        exact congrArg _ (by omega)

/-- C3: with a policy of `max_attempts = n` attempts (`n ≥ 1`): if the
operation fails `n - 1` times with a retryable error and then succeeds,
the executor returns the success value after exactly `n` invocations and
exactly `n - 1` sleeps; if every attempt fails with a retryable error,
the executor raises `RetryError` wrapping the last error after exactly
`n` invocations, again with `n - 1` sleeps — so no sleep follows the
final attempt in either scenario. -/
theorem C3_retry_executor (op : Nat → Except E A) (retryable : E → Bool) (n : Nat)
    (hn : 1 ≤ n) :
    (∀ v : A, (∀ i, i < n - 1 → ∃ e, op i = .error e ∧ retryable e = true) →
      op (n - 1) = .ok v →
      retry_with_backoff op retryable n = ⟨.ok v, n, n - 1⟩) ∧
    (∀ e : Nat → E, (∀ i, i < n → op i = .error (e i) ∧ retryable (e i) = true) →
      retry_with_backoff op retryable n = ⟨.exhausted (some (e (n - 1))), n, n - 1⟩) := by
  constructor
  · intro v hfail hsucc
    exact retryLoop_success op retryable n v n 0 none (by omega) hn
      (fun i _ hi2 => hfail i hi2) hsucc
  · intro e hfail
    exact retryLoop_exhaust op retryable n e n 0 none (by omega) hn
      (fun i _ hi2 => hfail i hi2)

/-- Witness for C3 at `n = 3`: two retryable failures then a success
gives `ok 42` with 3 calls and 2 sleeps; three retryable failures give
`RetryError` wrapping the last error with 3 calls and 2 sleeps. -/
theorem C3_retry_executor_witness :
    (1 ≤ 3) ∧
    retry_with_backoff (fun i => if i < 2 then Except.error "boom" else Except.ok 42)
      (fun _ => true) 3 = ⟨.ok 42, 3, 2⟩ ∧
    retry_with_backoff (fun i => (Except.error (s!"e{i}") : Except String Nat))
      (fun _ => true) 3 = ⟨.exhausted (some "e2"), 3, 2⟩ := by
  have h := C3_retry_executor
    (fun i => if i < 2 then Except.error "boom" else Except.ok (42 : Nat))
    (fun _ => true) 3 (by omega)
  have h2 := C3_retry_executor
    (fun i => (Except.error (s!"e{i}") : Except String Nat))
    (fun _ => true) 3 (by omega)
  refine ⟨by omega, ?_, ?_⟩
  · exact h.1 42 (fun i hi => ⟨"boom", by interval_cases i <;> simp⟩) (by simp)
  · exact h2.2 (fun i => s!"e{i}") (fun i hi => ⟨rfl, rfl⟩)

/-! ## Metrics & health (`src/utils/monitoring.py`)

The `Metrics` dataclass and `MetricsCollector.record_request` /
`get_health_status`.  `error_counts` (a Python dict keyed by error type)
is an association list in insertion order; `response_times` is the
`deque(maxlen=100)`; system gauges not read by the claims under check
(cpu/disk) are omitted, and the memory gauge sampled by
`update_system_metrics` is passed to `get_health_status` as an argument. -/

/-- The counter fields of the `Metrics` dataclass. -/
structure Metrics where
  total_requests : Nat
  successful_requests : Nat
  failed_requests : Nat
  average_response_time : ℚ
  cache_hits : Nat
  cache_misses : Nat
  error_counts : List (String × Nat)
  response_times : List ℚ
  deriving Repr, DecidableEq

/-- A fresh `Metrics()` (all dataclass defaults). -/
def Metrics.init : Metrics := ⟨0, 0, 0, 0, 0, 0, [], []⟩

/-- `self.metrics.error_counts[t] = self.metrics.error_counts.get(t, 0) + 1`. -/
def bumpCount : List (String × Nat) → String → List (String × Nat)
  | [], k => [(k, 1)]
  | (k', c) :: rest, k =>
      if k' = k then (k, c + 1) :: rest else (k', c) :: bumpCount rest k

/-- `MetricsCollector.record_request(success, response_time, error_type)`. -/
def record_request (m : Metrics) (success : Bool) (response_time : ℚ)
    (error_type : Option String) : Metrics :=
  let m1 := { m with total_requests := m.total_requests + 1 }
  let m2 :=
    if success then
      { m1 with successful_requests := m1.successful_requests + 1 }
    else
      let m1f := { m1 with failed_requests := m1.failed_requests + 1 }
      match error_type with
      | some t => { m1f with error_counts := bumpCount m1f.error_counts t }
      | none => m1f
  let appended := m2.response_times ++ [response_time]
  let rts := appended.drop (appended.length - 100)
  { m2 with
      response_times := rts,
      average_response_time := rts.sum / (rts.length : ℚ) }

/-- The success-rate computation inside `get_health_status` (percentage;
`0.0` when no request was recorded). -/
def success_rate (m : Metrics) : ℚ :=
  if 0 < m.total_requests then
    (m.successful_requests : ℚ) / (m.total_requests : ℚ) * 100
  else 0

/-- The `status` field of `MetricsCollector.get_health_status`, given the
memory gauge (MB) sampled by `update_system_metrics`.  The source assigns
sequentially: start `"healthy"`, overwrite with `"degraded"` when
`success_rate < 90`, overwrite with `"unhealthy"` when
`success_rate < 70 or memory_usage_mb > 1000`. -/
def get_health_status (m : Metrics) (memory_usage_mb : ℚ) : String :=
  let rate := success_rate m
  let s1 := "healthy"
  let s2 := if rate < 90 then "degraded" else s1
  if rate < 70 ∨ memory_usage_mb > 1000 then "unhealthy" else s2

/-- C4 counterexample: a metrics state with a 100% success rate (one
recorded success) is classified `"unhealthy"` when the sampled memory
gauge reads 2000 MB — the classification is *not* determined by the
success rate alone. -/
theorem C4_counterexample :
    success_rate (record_request Metrics.init true 1 none) = 100 ∧
    get_health_status (record_request Metrics.init true 1 none) 2000 = "unhealthy" := by
  have hr : success_rate (record_request Metrics.init true 1 none) = 100 := by
    norm_num [success_rate, record_request, Metrics.init]
  refine ⟨hr, ?_⟩
  rw [get_health_status, hr]
  norm_num

/-- C4 amended: when the sampled memory gauge is at most 1000 MB the
status is classified solely from the success rate with the claimed
thresholds (≥ 90% healthy, [70%, 90%) degraded, < 70% unhealthy,
independent of request volume given the rate); but whenever the memory
gauge exceeds 1000 MB the status is `"unhealthy"` regardless of the
rate. -/
theorem C4_health_classification (m : Metrics) (mem : ℚ) :
    (1000 < mem → get_health_status m mem = "unhealthy") ∧
    (mem ≤ 1000 →
      (get_health_status m mem = "healthy" ↔ 90 ≤ success_rate m) ∧
      (get_health_status m mem = "degraded" ↔
        70 ≤ success_rate m ∧ success_rate m < 90) ∧
      (get_health_status m mem = "unhealthy" ↔ success_rate m < 70)) ∧
    (∀ m' : Metrics, success_rate m' = success_rate m →
      get_health_status m' mem = get_health_status m mem) := by
  refine ⟨?_, ?_, ?_⟩
  · intro hmem
    simp only [get_health_status]
    rw [if_pos (Or.inr hmem)]
  · intro hmem
    have hmem' : ¬ mem > 1000 := not_lt.mpr hmem
    by_cases h70 : success_rate m < 70
    · have hs : get_health_status m mem = "unhealthy" := by
        simp only [get_health_status]
        rw [if_pos (Or.inl h70)]
      rw [hs]
      refine ⟨?_, ?_, ?_⟩
      · constructor
        · intro h; exact absurd h (by decide)
        · intro h; exfalso; linarith
      · constructor
        · intro h; exact absurd h (by decide)
        · rintro ⟨h, -⟩; exfalso; linarith
      · exact ⟨fun _ => h70, fun _ => rfl⟩
    · by_cases h90 : success_rate m < 90
      · have hs : get_health_status m mem = "degraded" := by
          simp only [get_health_status]
          rw [if_neg (not_or.mpr ⟨h70, hmem'⟩), if_pos h90]
        rw [hs]
        refine ⟨?_, ?_, ?_⟩
        · constructor
          · intro h; exact absurd h (by decide)
          · intro h; exfalso; linarith
        · exact ⟨fun _ => ⟨le_of_not_lt h70, h90⟩, fun _ => rfl⟩
        · constructor
          · intro h; exact absurd h (by decide)
          · intro h; exact absurd h h70
      · have hs : get_health_status m mem = "healthy" := by
          simp only [get_health_status]
          rw [if_neg (not_or.mpr ⟨h70, hmem'⟩), if_neg h90]
        rw [hs]
        refine ⟨?_, ?_, ?_⟩
        · exact ⟨fun _ => le_of_not_lt h90, fun _ => rfl⟩
        · constructor
          · intro h; exact absurd h (by decide)
          · rintro ⟨-, h⟩; exact absurd h h90
        · constructor
          · intro h; exact absurd h (by decide)
          · intro h; exact absurd h h70
  · intro m' hrate
    simp only [get_health_status, hrate]

/-- Witness for C4's amended theorem: a fresh collector (rate 0) with a
0 MB gauge is classified `"unhealthy"`. -/
theorem C4_health_classification_witness :
    ((0 : ℚ) ≤ 1000) ∧ success_rate Metrics.init < 70 ∧
    get_health_status Metrics.init 0 = "unhealthy" := by
  have h := (C4_health_classification Metrics.init 0).2.1 (by norm_num)
  have hrate : success_rate Metrics.init < 70 := by
    norm_num [success_rate, Metrics.init]
  exact ⟨by norm_num, hrate, h.2.2.mpr hrate⟩

/-- `sum(error_counts.values())`. -/
def sumCounts (l : List (String × Nat)) : Nat := (l.map Prod.snd).sum

/-- Bumping one error type's count raises the total count by one. -/
theorem sumCounts_bumpCount (l : List (String × Nat)) (k : String) :
    sumCounts (bumpCount l k) = sumCounts l + 1 := by
  induction l with
  | nil => simp [bumpCount, sumCounts]
  | cons p rest ih =>
      obtain ⟨k', c⟩ := p
      by_cases h : k' = k
      · simp [bumpCount, sumCounts, h]
        omega
      · simp [bumpCount, sumCounts, h] at ih ⊢
        omega

/-- The C10 invariant. -/
def MetricsInv (m : Metrics) : Prop :=
  m.total_requests = m.successful_requests + m.failed_requests ∧
  sumCounts m.error_counts ≤ m.failed_requests

/-- One `record_request` call preserves the invariant. -/
theorem metricsInv_record (m : Metrics) (success : Bool) (rt : ℚ) (et : Option String)
    (h : MetricsInv m) : MetricsInv (record_request m success rt et) := by
  obtain ⟨h1, h2⟩ := h
  cases success with
  | true => exact ⟨by simp [record_request]; omega, by simp [record_request]; omega⟩
  | false =>
      cases et with
      | none => exact ⟨by simp [record_request]; omega, by simp [record_request]; omega⟩
      | some t =>
          refine ⟨by simp [record_request]; omega, ?_⟩
          simp [record_request, sumCounts_bumpCount]
          omega

/-- Folding `record_request` over any call sequence from any invariant
state stays within the invariant. -/
theorem metricsInv_foldl (calls : List (Bool × ℚ × Option String)) :
    ∀ m : Metrics, MetricsInv m →
    MetricsInv (calls.foldl (fun acc c => record_request acc c.1 c.2.1 c.2.2) m) := by
  induction calls with
  | nil => intro m h; exact h
  | cons c rest ih =>
      intro m h
      exact ih _ (metricsInv_record m c.1 c.2.1 c.2.2 h)

/-- C10: after every sequence of `record_request` calls on a fresh
`MetricsCollector`, `total_requests = successful_requests +
failed_requests`, and the sum of all `error_counts` values never exceeds
`failed_requests`. -/
theorem C10_metrics_invariant (calls : List (Bool × ℚ × Option String)) :
    (calls.foldl (fun acc c => record_request acc c.1 c.2.1 c.2.2) Metrics.init).total_requests
      = (calls.foldl (fun acc c => record_request acc c.1 c.2.1 c.2.2) Metrics.init).successful_requests
        + (calls.foldl (fun acc c => record_request acc c.1 c.2.1 c.2.2) Metrics.init).failed_requests
      ∧
    sumCounts (calls.foldl (fun acc c => record_request acc c.1 c.2.1 c.2.2) Metrics.init).error_counts
      ≤ (calls.foldl (fun acc c => record_request acc c.1 c.2.1 c.2.2) Metrics.init).failed_requests := by
  exact metricsInv_foldl calls Metrics.init ⟨rfl, by simp [Metrics.init, sumCounts]⟩

/-! ## Cache key derivation (`src/main.py`, `handle_chat`)

`handle_chat` builds
`history_key = "\n".join(f"{turn['role']}: {turn['content']}" ...)` and
looks up / stores under the text `f"{history_key}\nUser: {validated_query}"`.
`cache_query_response` / `get_cached_response` then store under
`"query:" + md5(text)`; since the md5-hex digest of equal texts is equal,
any collision of the pre-hash texts is a collision of the stored keys,
and determinism of the text is determinism of the key. -/

/-- A conversation turn as a `(role, content)` pair. -/
abbrev Turn := String × String

/-- `"\n".join(f"{turn['role']}: {turn['content']}" for turn in chat_history)`. -/
def serializeHistory (history : List Turn) : String :=
  String.intercalate "\n" (history.map (fun t => t.1 ++ ": " ++ t.2))

/-- The pre-hash cache-key text `f"{history_key}\nUser: {validated_query}"`. -/
def cacheKeyText (history : List Turn) (query : String) : String :=
  serializeHistory history ++ "\nUser: " ++ query

/-- C2 counterexample: two *different* histories — an assistant turn whose
content embeds a newline-plus-`"user: "` line, versus the two-turn history
it imitates — serialize to the same key text for the same question, so
their md5-derived cache keys collide. -/
theorem C2_counterexample :
    ([("assistant", "x\nuser: y")] : List Turn) ≠ [("assistant", "x"), ("user", "y")] ∧
    cacheKeyText [("assistant", "x\nuser: y")] "What is the policy?"
      = cacheKeyText [("assistant", "x"), ("user", "y")] "What is the policy?" := by
  exact ⟨by decide, by decide⟩

/-- C2 amended: the key text is deterministic in `(history, query)`, and
the two histories named by the claim — empty versus `[("user", "hi")]` —
give different key texts for every question; but *differing histories do
not always give differing keys*: serializations can coincide when a
turn's content embeds newlines (see the counterexample). -/
theorem C2_cache_key (q : String) :
    cacheKeyText [] q ≠ cacheKeyText [("user", "hi")] q ∧
    (∀ (h₁ h₂ : List Turn) (q₁ q₂ : String), h₁ = h₂ → q₁ = q₂ →
      cacheKeyText h₁ q₁ = cacheKeyText h₂ q₂) := by
  constructor
  · intro heq
    have h1 : cacheKeyText [] q = "\nUser: " ++ q := rfl
    have h2 : cacheKeyText [("user", "hi")] q = "user: hi\nUser: " ++ q := rfl
    rw [h1, h2] at heq
    have hlen := congrArg String.length heq
    have l1 : ("\nUser: " : String).length = 7 := rfl
    have l2 : ("user: hi\nUser: " : String).length = 15 := rfl
    rw [String.length_append, String.length_append, l1, l2] at hlen
    omega
  · intro h₁ h₂ q₁ q₂ hh hq
    rw [hh, hq]

/-- Witness for C2's amended theorem at the spec's own question text. -/
theorem C2_cache_key_witness :
    cacheKeyText [] "What is the policy?"
      ≠ cacheKeyText [("user", "hi")] "What is the policy?" :=
  (C2_cache_key "What is the policy?").1

/-! ## Input validation (`src/utils/validation.py`, `validate_query`)

Strings are processed as `List Char`.  `str.strip()` and the regex class
`\s` are modelled by `isPyWs` (ASCII whitespace plus the Unicode
whitespace recognised by Python); `re.IGNORECASE` is modelled by
lowercasing the text (`Char.toLower`, exact on ASCII) and matching
lowercase patterns.  Each of the five `dangerous_patterns` regexes is
embedded as an executable matcher deciding whether `re.search` finds a
match: regex `.` does not match a newline, `\w` is a word character and
`\s` whitespace; existence of a match does not depend on the lazy/greedy
distinction, so the matchers scan each start position directly. -/

/-- Python whitespace: the characters matched by `\s` / stripped by
`str.strip()`. -/
def isPyWs (c : Char) : Bool :=
  c = ' ' || c = '\t' || c = '\n' || c = '\r' || c = '\x0b' || c = '\x0c' ||
  c = '\x1c' || c = '\x1d' || c = '\x1e' || c = '\x1f' || c = '\x85' || c = '\xa0' ||
  c = '\u1680' || (decide ('\u2000' ≤ c) && decide (c ≤ '\u200A')) ||
  c = '\u2028' || c = '\u2029' || c = '\u202F' || c = '\u205F' || c = '\u3000'

/-- `query.strip()`. -/
def pyStrip (l : List Char) : List Char :=
  (((l.dropWhile isPyWs).reverse.dropWhile isPyWs)).reverse

/-- Worker for `re.sub(r'\s+', ' ', query)`: the flag records whether the
previous character was inside a whitespace run (whose single `' '`
replacement has already been emitted). -/
def collapseGo : Bool → List Char → List Char
  | _, [] => []
  | true, c :: rest =>
      if isPyWs c then collapseGo true rest else c :: collapseGo false rest
  | false, c :: rest =>
      if isPyWs c then ' ' :: collapseGo true rest else c :: collapseGo false rest

/-- `re.sub(r'\s+', ' ', query)`: collapse each whitespace run to one space.
(The earlier `re.sub(r'\n\s*\n', '\n\n', ...)` pass in the optimizer turns
whitespace runs into whitespace runs, so it is absorbed by this pass.) -/
def collapseWs (l : List Char) : List Char := collapseGo false l

/-- Does `text` start with `pat`? -/
def startsWithL : List Char → List Char → Bool
  | [], _ => true
  | _ :: _, [] => false
  | p :: ps, c :: cs => p = c && startsWithL ps cs

/-- Does `pat` occur anywhere in the text (plain substring search)? -/
def containsSub (pat : List Char) : List Char → Bool
  | [] => startsWithL pat []
  | c :: rest => startsWithL pat (c :: rest) || containsSub pat rest

/-- After an occurrence of `<script`, does `.*?>.*?</script>` match?
Since `.` does not match newlines, only the text up to the next newline is
searched: a `>` must occur there, followed by `</script>`. -/
def scriptAfter (cs : List Char) : Bool :=
  match (cs.takeWhile (· ≠ '\n')).dropWhile (· ≠ '>') with
  | [] => false
  | _ :: afterGt => containsSub "</script>".data afterGt

/-- `re.search(r'<script.*?>.*?</script>', text)` on lowercased text. -/
def hasScriptTag : List Char → Bool
  | [] => false
  | c :: rest =>
      (startsWithL "<script".data (c :: rest) && scriptAfter ((c :: rest).drop 7))
        || hasScriptTag rest

/-- Regex `\w` (word character; ASCII view of Python `\w`). -/
def isWordChar (c : Char) : Bool := c.isAlpha || c.isDigit || c = '_'

/-- `re.search(r'on\w+\s*=', text)` on lowercased text: `on`, one or more
word characters, optional whitespace, then `=`. -/
def hasEventHandler : List Char → Bool
  | [] => false
  | c :: rest =>
      (match c :: rest with
       | 'o' :: 'n' :: rest2 =>
           !(rest2.takeWhile isWordChar).isEmpty &&
           (match (rest2.dropWhile isWordChar).dropWhile isPyWs with
            | '=' :: _ => true
            | _ => false)
       | _ => false)
      || hasEventHandler rest

/-- The `dangerous_patterns` loop of `validate_query`: does any of the
five case-insensitive patterns match? -/
def matchesDangerous (l : List Char) : Bool :=
  let low := l.map Char.toLower
  hasScriptTag low || containsSub "javascript:".data low ||
  containsSub "data:text/html".data low || containsSub "vbscript:".data low ||
  hasEventHandler low

/-- `validate_query(query)`: `Except` error message or sanitized query. -/
def validate_query (q : String) : Except String String :=
  if q.data = [] then .error "Query cannot be empty"
  else if pyStrip q.data = [] then .error "Query cannot be empty or only whitespace"
  else if 2000 < (pyStrip q.data).length then
    .error "Query too long. Maximum 2000 characters allowed."
  else if (pyStrip q.data).length < 2 then
    .error "Query too short. Minimum 2 characters required."
  else if matchesDangerous (pyStrip q.data) then
    .error "Query contains potentially unsafe content"
  else .ok (String.mk (collapseWs (pyStrip q.data)))

/-- C6 counterexample: the query `"<script>a\nb</script>"` *is* an embedded
`<script>...</script>` element (shown by the literal decomposition), yet
`validate_query` accepts it: the script-tag regex's `.` cannot cross the
newline inside the element, and no other pattern fires, so validation
returns the whitespace-collapsed text instead of `UnsafeContent`. -/
theorem C6_counterexample :
    "<script>a\nb</script>" = "<script>" ++ "a\nb" ++ "</script>" ∧
    validate_query "<script>a\nb</script>" = .ok "<script>a b</script>" := by
  exact ⟨rfl, rfl⟩

/-- C9 counterexample: `"<script>a\nb</script>"` satisfies the claim's
hypotheses — trimmed length in `[2, 2000]` and *no* dangerous pattern
matches it — but `validate` is not idempotent on it: the first pass
collapses the newline to a space, which *creates* a script-tag match, so
the second pass rejects what the first pass accepted. -/
theorem C9_counterexample :
    2 ≤ (pyStrip ("<script>a\nb</script>" : String).data).length ∧
    (pyStrip ("<script>a\nb</script>" : String).data).length ≤ 2000 ∧
    matchesDangerous (pyStrip ("<script>a\nb</script>" : String).data) = false ∧
    validate_query "<script>a\nb</script>" = .ok "<script>a b</script>" ∧
    validate_query "<script>a b</script>"
      = .error "Query contains potentially unsafe content" := by
  refine ⟨by decide, by decide, by decide, rfl, rfl⟩

/-- A text that begins with the pattern matches `startsWithL`. -/
theorem startsWithL_append (pat rest : List Char) :
    startsWithL pat (pat ++ rest) = true := by
  induction pat with
  | nil => rfl
  | cons p ps ih => simp [startsWithL, ih]

/-- Substring search finds a pattern wherever it occurs. -/
theorem containsSub_append (pat s t : List Char) :
    containsSub pat (s ++ (pat ++ t)) = true := by
  induction s with
  | nil =>
      cases pat with
      | nil => cases t <;> simp [containsSub, startsWithL]
      | cons p ps =>
          show containsSub (p :: ps) (p :: (ps ++ t)) = true
          have h : startsWithL (p :: ps) ((p :: ps) ++ t) = true := startsWithL_append _ _
          simp only [containsSub]
          rw [show p :: (ps ++ t) = (p :: ps) ++ t from rfl, h, Bool.true_or]
  | cons x s' ih => simp [containsSub, ih]

/-- Scanning for the first `'>'` in `b ++ '>' :: rest` yields a `'>'`
followed by a tail that still ends in `rest`. -/
theorem dropWhile_to_gt (b rest : List Char) :
    ∃ t, (b ++ '>' :: rest).dropWhile (· ≠ '>') = '>' :: t ∧ rest <:+ t := by
  induction b with
  | nil =>
      refine ⟨rest, ?_, List.suffix_refl rest⟩
      simp [List.dropWhile_cons]
  | cons x b' ih =>
      by_cases hx : x = '>'
      · subst hx
        refine ⟨b' ++ '>' :: rest, ?_, ?_⟩
        · simp [List.dropWhile_cons]
        · exact (List.suffix_cons '>' rest).trans (List.suffix_append b' ('>' :: rest))
      · obtain ⟨t, ht, hsuf⟩ := ih
        refine ⟨t, ?_, hsuf⟩
        rw [List.cons_append, List.dropWhile_cons, if_pos (by simpa using hx)]
        exact ht

/-- `takeWhile` passes over a block all of whose elements satisfy the
predicate. -/
theorem takeWhile_append_all (p : Char → Bool) (xs ys : List Char)
    (h : ∀ x ∈ xs, p x = true) :
    (xs ++ ys).takeWhile p = xs ++ ys.takeWhile p := by
  induction xs with
  | nil => rfl
  | cons x xs' ih =>
      rw [List.cons_append, List.takeWhile_cons, if_pos (h x (by simp)),
        ih (fun y hy => h y (by simp [hy])), List.cons_append]

/-- The tail matcher of the script-tag regex succeeds on text of the
shape `.*?>.*?</script>` with no newline in either gap. -/
theorem scriptAfter_decomp (b c d : List Char)
    (hb : ∀ x ∈ b, x ≠ '\n') (hc : ∀ x ∈ c, x ≠ '\n') :
    scriptAfter (b ++ '>' :: (c ++ ("</script>".data ++ d))) = true := by
  have hclose : ∀ x ∈ "</script>".data, (x ≠ '\n' : Bool) = true := by decide
  have hb' : ∀ x ∈ b, ((· ≠ '\n') x : Bool) = true := by
    intro x hx; simpa using hb x hx
  have hc' : ∀ x ∈ c, ((· ≠ '\n') x : Bool) = true := by
    intro x hx; simpa using hc x hx
  have hseg : (b ++ '>' :: (c ++ ("</script>".data ++ d))).takeWhile (· ≠ '\n')
      = b ++ '>' :: (c ++ ("</script>".data ++ d.takeWhile (· ≠ '\n'))) := by
    rw [takeWhile_append_all _ _ _ hb', List.takeWhile_cons, if_pos (by decide),
      takeWhile_append_all _ _ _ hc', takeWhile_append_all _ _ _ hclose]
  obtain ⟨t, ht, hsuf⟩ := dropWhile_to_gt b (c ++ ("</script>".data ++ d.takeWhile (· ≠ '\n')))
  obtain ⟨u, hu⟩ := hsuf
  have hteq : t = (u ++ c) ++ ("</script>".data ++ d.takeWhile (· ≠ '\n')) := by
    rw [← hu]; simp
  rw [scriptAfter, hseg, ht, hteq]
  exact containsSub_append _ _ _

/-- The script-tag matcher fires on any text embedding
`<script…>…</script>` with no newline inside the element. -/
theorem hasScriptTag_decomp (a b c d : List Char)
    (hb : ∀ x ∈ b, x ≠ '\n') (hc : ∀ x ∈ c, x ≠ '\n') :
    hasScriptTag (a ++ ("<script".data ++ (b ++ '>' :: (c ++ ("</script>".data ++ d)))))
      = true := by
  induction a with
  | nil =>
      rw [List.nil_append]
      have hstart : startsWithL "<script".data
          ("<script".data ++ (b ++ '>' :: (c ++ ("</script>".data ++ d)))) = true :=
        startsWithL_append _ _
      have hdrop : ("<script".data ++ (b ++ '>' :: (c ++ ("</script>".data ++ d)))).drop 7
          = b ++ '>' :: (c ++ ("</script>".data ++ d)) := by
        have h7 : ("<script".data).length = 7 := by decide
        rw [← h7, List.drop_left]
      show hasScriptTag ('<' :: ("script".data ++ (b ++ '>' :: (c ++ ("</script>".data ++ d)))))
          = true
      rw [hasScriptTag]
      have : ('<' :: ("script".data ++ (b ++ '>' :: (c ++ ("</script>".data ++ d)))))
          = "<script".data ++ (b ++ '>' :: (c ++ ("</script>".data ++ d))) := rfl
      rw [this, hstart, hdrop, scriptAfter_decomp b c d hb hc, Bool.true_and, Bool.true_or]
  | cons x a' ih =>
      rw [List.cons_append, hasScriptTag, ih, Bool.or_true]

/-- C6 amended: for every query whose trimmed text has length in
`[2, 2000]` and contains — in any character case — an embedded
`<script…>…</script>` element *with no newline inside the element*,
`validate_query` fails with the `UnsafeContent` error.  (The newline
restriction is forced by the counterexample: regex `.` does not match
newlines, so an element broken across lines escapes the pattern.) -/
theorem C6_script_tag_rejected (q : String) (a b c d : List Char)
    (hdec : (pyStrip q.data).map Char.toLower
      = a ++ ("<script".data ++ (b ++ '>' :: (c ++ ("</script>".data ++ d)))))
    (hb : ∀ x ∈ b, x ≠ '\n') (hc : ∀ x ∈ c, x ≠ '\n')
    (hmin : 2 ≤ (pyStrip q.data).length) (hmax : (pyStrip q.data).length ≤ 2000) :
    validate_query q = .error "Query contains potentially unsafe content" := by
  have hq : ¬ q.data = [] := by
    intro h
    rw [h] at hmin
    simp [pyStrip] at hmin
  have hs : ¬ pyStrip q.data = [] := by
    intro h
    rw [h] at hmin
    simp at hmin
  have hdang : matchesDangerous (pyStrip q.data) = true := by
    rw [matchesDangerous]
    rw [hdec, hasScriptTag_decomp a b c d hb hc]
    simp
  rw [validate_query, if_neg hq, if_neg hs, if_neg (by omega), if_neg (by omega),
    if_pos hdang]

/-- Witness for C6's amended theorem at the single-line query
`"<SCRIPT>alert(1)</script>"` (mixed case). -/
theorem C6_script_tag_rejected_witness :
    ((pyStrip ("<SCRIPT>alert(1)</script>" : String).data).map Char.toLower
      = [] ++ ("<script".data ++ ([] ++ '>' :: ("alert(1)".data ++ ("</script>".data ++ []))))) ∧
    (2 ≤ (pyStrip ("<SCRIPT>alert(1)</script>" : String).data).length) ∧
    ((pyStrip ("<SCRIPT>alert(1)</script>" : String).data).length ≤ 2000) ∧
    validate_query "<SCRIPT>alert(1)</script>"
      = .error "Query contains potentially unsafe content" := by
  refine ⟨by decide, by decide, by decide, ?_⟩
  exact C6_script_tag_rejected "<SCRIPT>alert(1)</script>" [] [] "alert(1)".data []
    (by decide) (by decide) (by decide) (by decide) (by decide)

/-- Whitespace collapsing is idempotent. -/
theorem collapseGo_idem (l : List Char) :
    ∀ b, collapseGo b (collapseGo b l) = collapseGo b l := by
  induction l with
  | nil => intro b; cases b <;> rfl
  | cons c rest ih =>
      intro b
      by_cases hc : isPyWs c = true
      · cases b with
        | true =>
            rw [collapseGo, if_pos hc]
            exact ih true
        | false =>
            rw [collapseGo, if_pos hc]
            rw [collapseGo, if_pos (by decide : isPyWs ' ' = true)]
            rw [ih true]
      · cases b with
        | true =>
            rw [collapseGo, if_neg hc, collapseGo, if_neg hc, ih false]
        | false =>
            rw [collapseGo, if_neg hc, collapseGo, if_neg hc, ih false]

/-- Collapsing never lengthens the text. -/
theorem collapseGo_length_le (l : List Char) :
    ∀ b, (collapseGo b l).length ≤ l.length := by
  induction l with
  | nil => intro b; cases b <;> simp [collapseGo]
  | cons c rest ih =>
      intro b
      by_cases hc : isPyWs c = true
      · cases b with
        | true =>
            rw [collapseGo, if_pos hc]
            exact le_trans (ih true) (by simp)
        | false =>
            rw [collapseGo, if_pos hc]
            simpa using ih true
      · cases b with
        | true =>
            rw [collapseGo, if_neg hc]
            simpa using ih false
        | false =>
            rw [collapseGo, if_neg hc]
            simpa using ih false

/-- `getLast?` ignores a cons onto a nonempty list. -/
theorem getLast?_cons_of_ne_nil {α : Type} (a : α) (l : List α) (h : l ≠ []) :
    (a :: l).getLast? = l.getLast? := by
  cases l with
  | nil => exact absurd rfl h
  | cons x xs => rw [List.getLast?_cons_cons]

/-- Collapsing preserves a non-whitespace final character (and in
particular produces a nonempty result). -/
theorem collapseGo_getLast (l : List Char) :
    ∀ b ch, l.getLast? = some ch → isPyWs ch = false →
    (collapseGo b l).getLast? = some ch ∧ collapseGo b l ≠ [] := by
  induction l with
  | nil => intro b ch h _; simp at h
  | cons c rest ih =>
      intro b ch hlast hws
      cases rest with
      | nil =>
          have hch : c = ch := by simpa using hlast
          subst hch
          have hc : ¬ isPyWs c = true := by simp [hws]
          cases b with
          | true => rw [collapseGo, if_neg hc]; exact ⟨rfl, by simp⟩
          | false => rw [collapseGo, if_neg hc]; exact ⟨rfl, by simp⟩
      | cons c2 rest2 =>
          have hlast2 : (c2 :: rest2).getLast? = some ch := by
            rwa [List.getLast?_cons_cons] at hlast
          by_cases hc : isPyWs c = true
          · cases b with
            | true =>
                rw [collapseGo, if_pos hc]
                exact ih true ch hlast2 hws
            | false =>
                rw [collapseGo, if_pos hc]
                obtain ⟨h1, h2⟩ := ih true ch hlast2 hws
                exact ⟨by rw [getLast?_cons_of_ne_nil _ _ h2]; exact h1, by simp⟩
          · cases b with
            | true =>
                rw [collapseGo, if_neg hc]
                obtain ⟨h1, h2⟩ := ih false ch hlast2 hws
                exact ⟨by rw [getLast?_cons_of_ne_nil _ _ h2]; exact h1, by simp⟩
            | false =>
                rw [collapseGo, if_neg hc]
                obtain ⟨h1, h2⟩ := ih false ch hlast2 hws
                exact ⟨by rw [getLast?_cons_of_ne_nil _ _ h2]; exact h1, by simp⟩

/-- The head surviving a `dropWhile` fails the predicate. -/
theorem head?_dropWhile (p : Char → Bool) (l : List Char) :
    ∀ ch, (l.dropWhile p).head? = some ch → p ch = false := by
  induction l with
  | nil => intro ch h; simp [List.dropWhile] at h
  | cons c rest ih =>
      intro ch h
      rw [List.dropWhile_cons] at h
      by_cases hc : p c = true
      · rw [if_pos hc] at h
        exact ih ch h
      · rw [if_neg hc] at h
        have hch : c = ch := by simpa using h
        subst hch
        simpa using hc

/-- `dropWhile` is the identity when the head already fails the predicate. -/
theorem dropWhile_eq_self_of_head (p : Char → Bool) (l : List Char)
    (h : ∀ ch, l.head? = some ch → p ch = false) : l.dropWhile p = l := by
  cases l with
  | nil => rfl
  | cons c rest => rw [List.dropWhile_cons, if_neg (by simp [h c rfl])]

/-- A text whose first and last characters are non-whitespace strips to
itself. -/
theorem pyStrip_eq_self (l : List Char)
    (hh : ∀ ch, l.head? = some ch → isPyWs ch = false)
    (hl : ∀ ch, l.getLast? = some ch → isPyWs ch = false) :
    pyStrip l = l := by
  rw [pyStrip, dropWhile_eq_self_of_head _ _ hh,
    dropWhile_eq_self_of_head _ _ (fun ch h => hl ch (by rwa [List.head?_reverse] at h)),
    List.reverse_reverse]

/-- The head of a stripped text is non-whitespace. -/
theorem pyStrip_head (l : List Char) :
    ∀ ch, (pyStrip l).head? = some ch → isPyWs ch = false := by
  intro ch h
  rw [pyStrip, List.head?_reverse] at h
  obtain ⟨u, hu⟩ := List.dropWhile_suffix (l := (l.dropWhile isPyWs).reverse) (p := isPyWs)
  have hgl : (l.dropWhile isPyWs).reverse.getLast? = some ch := by
    rw [← hu, List.getLast?_append, h]
    rfl
  rw [List.getLast?_reverse] at hgl
  exact head?_dropWhile _ _ ch hgl

/-- The last character of a stripped text is non-whitespace. -/
theorem pyStrip_getLast (l : List Char) :
    ∀ ch, (pyStrip l).getLast? = some ch → isPyWs ch = false := by
  intro ch h
  rw [pyStrip, List.getLast?_reverse] at h
  exact head?_dropWhile _ _ ch h

/-- C9 amended: for every query whose trimmed length is within
`[min_query_length, max_query_length]`, which matches no disallowed
pattern, *and whose whitespace-collapsed form also matches no disallowed
pattern*, `validate` is idempotent: it accepts the query, and re-running
it on its own output returns that output unchanged.  (The extra
hypothesis is forced by the counterexample: collapsing can create a
dangerous pattern that the raw query did not match.) -/
theorem C9_validate_idempotent (q : String)
    (hmin : 2 ≤ (pyStrip q.data).length) (hmax : (pyStrip q.data).length ≤ 2000)
    (hsafe : matchesDangerous (pyStrip q.data) = false)
    (hsafe2 : matchesDangerous (collapseWs (pyStrip q.data)) = false) :
    validate_query q = .ok (String.mk (collapseWs (pyStrip q.data))) ∧
    validate_query (String.mk (collapseWs (pyStrip q.data))) = validate_query q := by
  have hq : ¬ q.data = [] := by
    intro h
    rw [h] at hmin
    simp [pyStrip] at hmin
  have hs : ¬ pyStrip q.data = [] := by
    intro h
    rw [h] at hmin
    simp at hmin
  have hvq : validate_query q = .ok (String.mk (collapseWs (pyStrip q.data))) := by
    rw [validate_query, if_neg hq, if_neg hs, if_neg (by omega), if_neg (by omega),
      if_neg (by simp [hsafe])]
  refine ⟨hvq, ?_⟩
  obtain ⟨c0, t, hst⟩ : ∃ c0 t, pyStrip q.data = c0 :: t := by
    cases hx : pyStrip q.data with
    | nil => exact absurd hx hs
    | cons c0 t => exact ⟨c0, t, rfl⟩
  have hc0 : isPyWs c0 = false := pyStrip_head q.data c0 (by rw [hst]; rfl)
  obtain ⟨ce, hce⟩ : ∃ ce, (pyStrip q.data).getLast? = some ce := by
    cases hx : (pyStrip q.data).getLast? with
    | none => exact absurd (List.getLast?_eq_none_iff.mp hx) hs
    | some ce => exact ⟨ce, rfl⟩
  have hcews : isPyWs ce = false := pyStrip_getLast q.data ce hce
  have hr_eq : collapseWs (pyStrip q.data) = c0 :: collapseGo false t := by
    rw [collapseWs, hst, collapseGo, if_neg (by simp [hc0])]
  have htne : t ≠ [] := by
    intro h
    rw [hst, h] at hmin
    simp at hmin
  have htlast : t.getLast? = some ce := by
    rw [hst, getLast?_cons_of_ne_nil c0 t htne] at hce
    exact hce
  obtain ⟨ht1, ht2⟩ := collapseGo_getLast t false ce htlast hcews
  have hrne : collapseWs (pyStrip q.data) ≠ [] := by
    rw [hr_eq]
    simp
  have hrlast : (collapseWs (pyStrip q.data)).getLast? = some ce := by
    rw [hr_eq, getLast?_cons_of_ne_nil c0 _ ht2]
    exact ht1
  have hrstrip : pyStrip (collapseWs (pyStrip q.data)) = collapseWs (pyStrip q.data) := by
    refine pyStrip_eq_self _ ?_ ?_
    · intro ch h
      rw [hr_eq] at h
      have : c0 = ch := by simpa using h
      rw [← this]
      exact hc0
    · intro ch h
      rw [hrlast] at h
      have : ce = ch := by simpa using h
      rw [← this]
      exact hcews
  have hrlen_le : (collapseWs (pyStrip q.data)).length ≤ 2000 :=
    le_trans (collapseGo_length_le (pyStrip q.data) false) hmax
  have hrlen_ge : 2 ≤ (collapseWs (pyStrip q.data)).length := by
    rw [hr_eq]
    have : 1 ≤ (collapseGo false t).length := by
      cases hx : collapseGo false t with
      | nil => exact absurd hx ht2
      | cons a l => simp
    simp only [List.length_cons]
    omega
  have hdata : (String.mk (collapseWs (pyStrip q.data))).data = collapseWs (pyStrip q.data) :=
    rfl
  have hidem : collapseWs (collapseWs (pyStrip q.data)) = collapseWs (pyStrip q.data) := by
    rw [collapseWs, collapseWs, collapseGo_idem]
  rw [validate_query, hdata, hrstrip, if_neg hrne, if_neg hrne, if_neg (by omega),
    if_neg (by omega), if_neg (by simp [hsafe2]), hidem, hvq]

/-- Witness for C9's amended theorem at `"hello  world"` (double space):
validation collapses it to `"hello world"`, and a second validation is a
fixpoint. -/
theorem C9_validate_idempotent_witness :
    (2 ≤ (pyStrip ("hello  world" : String).data).length) ∧
    ((pyStrip ("hello  world" : String).data).length ≤ 2000) ∧
    (matchesDangerous (pyStrip ("hello  world" : String).data) = false) ∧
    (matchesDangerous (collapseWs (pyStrip ("hello  world" : String).data)) = false) ∧
    (validate_query "hello  world"
      = .ok (String.mk (collapseWs (pyStrip ("hello  world" : String).data)))) ∧
    (validate_query (String.mk (collapseWs (pyStrip ("hello  world" : String).data)))
      = validate_query "hello  world") := by
  have h := C9_validate_idempotent "hello  world" (by decide) (by decide) (by decide) (by decide)
  exact ⟨by decide, by decide, by decide, by decide, h.1, h.2⟩

/-! ## Context optimizer (`src/rag_pipeline.py`,
`optimize_context_for_tinydolphin`)

Retrieved documents are their `page_content` texts (`List Char`).  The
loop counts only passage characters in `char_count`; the `"\n\n"`
separators appended to `combined_content` are not counted.  The float
comparison `last_period > remaining * 0.7` is modelled exactly over the
integers as `10 * last_period > 7 * remaining`; the results proved below
hold on either side of the threshold, so the float rounding of `0.7` is
immaterial to them. -/

/-- Per-document cleanup: `page_content.strip()` then
`re.sub(r'\n\s*\n', '\n\n', ...)` then `re.sub(r'\s+', ' ', ...)`.  The
first substitution maps whitespace runs to whitespace runs, so the second
absorbs it; the composite is collapse-after-strip. -/
def cleanDoc (page_content : List Char) : List Char := collapseWs (pyStrip page_content)

/-- `partial.rfind('.')`: index of the last `'.'`, or `-1`. -/
def rfindDot : List Char → Int
  | [] => -1
  | c :: rest =>
      if rfindDot rest ≥ 0 then rfindDot rest + 1
      else if c = '.' then 0 else -1

/-- The `for doc in docs` packing loop: `char_count` is the running count,
`acc` the accumulated `combined_content`.  A passage that fits whole is
appended with a `"\n\n"` separator; the first one that does not fit
contributes a truncated prefix (cut at the last sentence terminator when
that lies past 70% of the truncation, else with an `"..."` marker) if
more than 150 characters of budget remain, and the loop stops. -/
def packDocs : List (List Char) → Nat → Nat → List Char → List Char
  | [], _, _, acc => acc
  | doc :: rest, max_chars, char_count, acc =>
      if char_count + (cleanDoc doc).length ≤ max_chars then
        packDocs rest max_chars (char_count + (cleanDoc doc).length)
          (acc ++ cleanDoc doc ++ '\n' :: '\n' :: [])
      else if 150 < max_chars - char_count then
        if 10 * rfindDot ((cleanDoc doc).take (max_chars - char_count))
            > 7 * ((max_chars - char_count : Nat) : Int) then
          acc ++ ((cleanDoc doc).take (max_chars - char_count)).take
            ((rfindDot ((cleanDoc doc).take (max_chars - char_count))).toNat + 1)
        else
          acc ++ (cleanDoc doc).take (max_chars - char_count) ++ '.' :: '.' :: '.' :: []
      else acc

/-- `optimize_context_for_tinydolphin(docs, max_chars)`. -/
def optimize_context_for_tinydolphin (docs : List (List Char)) (max_chars : Nat) :
    List Char :=
  if docs = [] then "No relevant information available.".data
  else pyStrip (packDocs docs max_chars 0 [])

/-- `sum(len(content) for ...)`: total cleaned length of a document list. -/
def sumLens (l : List (List Char)) : Nat := (l.map List.length).sum

/-- `combined_content` built from whole passages: each followed by the
`"\n\n"` separator. -/
def joinPacked : List (List Char) → List Char
  | [] => []
  | x :: rest => x ++ '\n' :: '\n' :: joinPacked rest

/-- C1 counterexample: three passages of lengths 5, 5 and 10 against a
budget of 10 — the combined length 20 exceeds the budget, the first two
are packed whole (counted 10 ≤ 10), but the uncounted `"\n\n"` separator
leaves a context of length 12 > 10. -/
theorem C1_counterexample :
    sumLens (["aaaaa".data, "bbbbb".data, "cccccccccc".data].map cleanDoc) = 20 ∧
    (optimize_context_for_tinydolphin
      ["aaaaa".data, "bbbbb".data, "cccccccccc".data] 10).length = 12 ∧
    ¬ ((optimize_context_for_tinydolphin
      ["aaaaa".data, "bbbbb".data, "cccccccccc".data] 10).length ≤ 10) := by
  refine ⟨by decide, by decide, by decide⟩

/-- Stripping never lengthens a text. -/
theorem pyStrip_length_le (l : List Char) : (pyStrip l).length ≤ l.length := by
  have h1 : ∀ (m : List Char), (m.dropWhile isPyWs).length ≤ m.length := by
    intro m
    obtain ⟨u, hu⟩ := List.dropWhile_suffix (l := m) (p := isPyWs)
    conv_rhs => rw [← hu]
    rw [List.length_append]
    omega
  rw [pyStrip]
  calc (((l.dropWhile isPyWs).reverse.dropWhile isPyWs)).reverse.length
      = ((l.dropWhile isPyWs).reverse.dropWhile isPyWs).length := by simp
    _ ≤ (l.dropWhile isPyWs).reverse.length := h1 _
    _ = (l.dropWhile isPyWs).length := by simp
    _ ≤ l.length := h1 l

/-- Whole-passage packing costs each passage's length plus its
two-character separator. -/
theorem joinPacked_length (l : List (List Char)) :
    (joinPacked l).length = sumLens l + 2 * l.length := by
  induction l with
  | nil => simp [joinPacked, sumLens]
  | cons x rest ih =>
      simp only [joinPacked, sumLens, List.length_append, List.length_cons,
        List.map_cons, List.sum_cons] at ih ⊢
      omega

/-- The accumulator of the packing loop is a passive prefix. -/
theorem packDocs_acc (maxC : Nat) :
    ∀ (docs : List (List Char)) (cnt : Nat) (acc : List Char),
    packDocs docs maxC cnt acc = acc ++ packDocs docs maxC cnt [] := by
  intro docs
  induction docs with
  | nil => intro cnt acc; simp [packDocs]
  | cons doc rest ih =>
      intro cnt acc
      by_cases hfit : cnt + (cleanDoc doc).length ≤ maxC
      · rw [packDocs, if_pos hfit, packDocs, if_pos hfit,
          ih _ (acc ++ cleanDoc doc ++ '\n' :: '\n' :: []),
          ih _ ([] ++ cleanDoc doc ++ '\n' :: '\n' :: [])]
        simp
      · by_cases hrem : 150 < maxC - cnt
        · by_cases hper : 10 * rfindDot ((cleanDoc doc).take (maxC - cnt))
              > 7 * ((maxC - cnt : Nat) : Int)
          · rw [packDocs, if_neg hfit, if_pos hrem, if_pos hper,
              packDocs, if_neg hfit, if_pos hrem, if_pos hper]
            simp
          · rw [packDocs, if_neg hfit, if_pos hrem, if_neg hper,
              packDocs, if_neg hfit, if_pos hrem, if_neg hper]
            simp
        · rw [packDocs, if_neg hfit, if_neg hrem, packDocs, if_neg hfit, if_neg hrem]
          simp

/-- Characterization of the packing loop: it emits the maximal prefix of
whole (cleaned) passages whose counted total fits the budget, in order,
followed by a tail that is empty or a truncated prefix of the first
passage that did not fit (possibly with an `"..."` marker), of length at
most the leftover budget plus three. -/
theorem packDocs_spec (maxC : Nat) :
    ∀ (docs : List (List Char)) (cnt : Nat), cnt ≤ maxC →
    ∃ (k : Nat) (tail : List Char),
      k ≤ docs.length ∧
      cnt + sumLens ((docs.map cleanDoc).take k) ≤ maxC ∧
      (k < docs.length → maxC < cnt + sumLens ((docs.map cleanDoc).take (k + 1))) ∧
      packDocs docs maxC cnt [] = joinPacked ((docs.map cleanDoc).take k) ++ tail ∧
      tail.length ≤ (maxC - (cnt + sumLens ((docs.map cleanDoc).take k))) + 3 ∧
      (tail = [] ∨ ∃ pfx, pfx <+: cleanDoc (docs.getD k []) ∧
        (tail = pfx ∨ tail = pfx ++ '.' :: '.' :: '.' :: [])) := by
  intro docs
  induction docs with
  | nil =>
      intro cnt hcnt
      refine ⟨0, [], by simp, by simpa [sumLens] using hcnt, ?_, ?_, by simp, Or.inl rfl⟩
      · intro h; simp at h
      · simp [packDocs, joinPacked]
  | cons doc rest ih =>
      intro cnt hcnt
      by_cases hfit : cnt + (cleanDoc doc).length ≤ maxC
      · obtain ⟨k, tail, h1, h2, h3, h4, h5, h6⟩ := ih (cnt + (cleanDoc doc).length) hfit
        have htake : ∀ n, ((doc :: rest).map cleanDoc).take (n + 1)
            = cleanDoc doc :: ((rest.map cleanDoc).take n) := by
          intro n; simp
        have hsum : ∀ n, sumLens (cleanDoc doc :: ((rest.map cleanDoc).take n))
            = (cleanDoc doc).length + sumLens ((rest.map cleanDoc).take n) := by
          intro n; simp [sumLens]
        refine ⟨k + 1, tail, ?_, ?_, ?_, ?_, ?_, ?_⟩
        · simpa using Nat.succ_le_succ h1
        · rw [htake k, hsum k]; omega
        · intro hk
          have hk' : k < rest.length := by simpa using hk
          have h3' := h3 hk'
          rw [htake (k + 1), hsum (k + 1)]
          omega
        · rw [packDocs, if_pos hfit, packDocs_acc, htake k, joinPacked, h4]
          simp
        · rw [htake k, hsum k]
          omega
        · simpa using h6
      · by_cases hrem : 150 < maxC - cnt
        · by_cases hper : 10 * rfindDot ((cleanDoc doc).take (maxC - cnt))
              > 7 * ((maxC - cnt : Nat) : Int)
          · refine ⟨0, ((cleanDoc doc).take (maxC - cnt)).take
                ((rfindDot ((cleanDoc doc).take (maxC - cnt))).toNat + 1),
              by simp, by simpa [sumLens] using hcnt, ?_, ?_, ?_, ?_⟩
            · intro _
              have h10 : ((doc :: rest).map cleanDoc).take 1 = [cleanDoc doc] := by simp
              rw [h10]
              simp only [sumLens, List.map_cons, List.map_nil, List.sum_cons,
                List.sum_nil, Nat.add_zero]
              omega
            · rw [packDocs, if_neg hfit, if_pos hrem, if_pos hper]
              simp [joinPacked]
            · have ha := List.length_take_le
                ((rfindDot ((cleanDoc doc).take (maxC - cnt))).toNat + 1)
                ((cleanDoc doc).take (maxC - cnt))
              have hb := List.length_take_le (maxC - cnt) (cleanDoc doc)
              have hc := List.length_take_le'
                ((rfindDot ((cleanDoc doc).take (maxC - cnt))).toNat + 1)
                ((cleanDoc doc).take (maxC - cnt))
              simp only [sumLens, List.take_zero, List.map_nil, List.sum_nil,
                Nat.add_zero]
              omega
            · refine Or.inr ⟨((cleanDoc doc).take (maxC - cnt)).take
                ((rfindDot ((cleanDoc doc).take (maxC - cnt))).toNat + 1), ?_, Or.inl rfl⟩
              simp only [List.getD_cons_zero]
              exact (List.take_prefix _ _).trans (List.take_prefix _ _)
          · refine ⟨0, (cleanDoc doc).take (maxC - cnt) ++ '.' :: '.' :: '.' :: [],
              by simp, by simpa [sumLens] using hcnt, ?_, ?_, ?_, ?_⟩
            · intro _
              have h10 : ((doc :: rest).map cleanDoc).take 1 = [cleanDoc doc] := by simp
              rw [h10]
              simp only [sumLens, List.map_cons, List.map_nil, List.sum_cons,
                List.sum_nil, Nat.add_zero]
              omega
            · rw [packDocs, if_neg hfit, if_pos hrem, if_neg hper]
              simp [joinPacked]
            · have hb := List.length_take_le (maxC - cnt) (cleanDoc doc)
              simp only [sumLens, List.take_zero, List.map_nil, List.sum_nil,
                Nat.add_zero, List.length_append, List.length_cons, List.length_nil]
              omega
            · refine Or.inr ⟨(cleanDoc doc).take (maxC - cnt), ?_, Or.inr rfl⟩
              simp only [List.getD_cons_zero]
              exact List.take_prefix _ _
        · refine ⟨0, [], by simp, by simpa [sumLens] using hcnt, ?_, ?_, by simp, Or.inl rfl⟩
          · intro _
            have h10 : ((doc :: rest).map cleanDoc).take 1 = [cleanDoc doc] := by simp
            rw [h10]
            simp only [sumLens, List.map_cons, List.map_nil, List.sum_cons,
              List.sum_nil, Nat.add_zero]
            omega
          · rw [packDocs, if_neg hfit, if_neg hrem]
            simp [joinPacked]

/-- C1 amended: for every non-empty passage sequence whose combined
cleaned length exceeds the budget, the optimizer packs a *maximal* prefix
of whole passages in relevance order (dropping the lowest-ranked
remainder), possibly followed by a truncated prefix of the first passage
that did not fit (with an optional `"..."` marker); the result's length
is bounded by `max_chars + 2·(number of passages) + 3`, *not* by
`max_chars` itself — the two-character separators after each packed
passage and the ellipsis are not counted against the budget. -/
theorem C1_optimizer_packing (docs : List (List Char)) (max_chars : Nat)
    (hne : docs ≠ [])
    (hover : max_chars < sumLens (docs.map cleanDoc)) :
    (optimize_context_for_tinydolphin docs max_chars).length
        ≤ max_chars + 2 * docs.length + 3 ∧
    ∃ k tail, k < docs.length ∧
      sumLens ((docs.map cleanDoc).take k) ≤ max_chars ∧
      max_chars < sumLens ((docs.map cleanDoc).take (k + 1)) ∧
      optimize_context_for_tinydolphin docs max_chars
        = pyStrip (joinPacked ((docs.map cleanDoc).take k) ++ tail) ∧
      (tail = [] ∨ ∃ pfx, pfx <+: cleanDoc (docs.getD k []) ∧
        (tail = pfx ∨ tail = pfx ++ '.' :: '.' :: '.' :: [])) := by
  obtain ⟨k, tail, h1, h2, h3, h4, h5, h6⟩ := packDocs_spec max_chars docs 0 (by omega)
  have hopt : optimize_context_for_tinydolphin docs max_chars
      = pyStrip (packDocs docs max_chars 0 []) := by
    rw [optimize_context_for_tinydolphin, if_neg hne]
  have hklt : k < docs.length := by
    rcases Nat.lt_or_ge k docs.length with h | h
    · exact h
    · exfalso
      have hk : k = docs.length := le_antisymm h1 h
      have hfull : ((docs.map cleanDoc)).take k = docs.map cleanDoc := by
        rw [hk, ← List.length_map docs cleanDoc, List.take_length]
      rw [hfull] at h2
      omega
  constructor
  · rw [hopt, h4]
    have ha := pyStrip_length_le (joinPacked ((docs.map cleanDoc).take k) ++ tail)
    have hb := joinPacked_length ((docs.map cleanDoc).take k)
    have hcl : ((docs.map cleanDoc).take k).length ≤ docs.length := by
      have := List.length_take_le k (docs.map cleanDoc)
      omega
    simp only [List.length_append] at ha
    omega
  · exact ⟨k, tail, hklt, by simpa using h2, by have := h3 hklt; simpa using this,
      by rw [hopt, h4], h6⟩

/-- Witness for C1's amended theorem at the counterexample's input: three
passages of lengths 5, 5, 10 against budget 10. -/
theorem C1_optimizer_packing_witness :
    (["aaaaa".data, "bbbbb".data, "cccccccccc".data] ≠ ([] : List (List Char))) ∧
    (10 < sumLens (["aaaaa".data, "bbbbb".data, "cccccccccc".data].map cleanDoc)) ∧
    ((optimize_context_for_tinydolphin
        ["aaaaa".data, "bbbbb".data, "cccccccccc".data] 10).length
      ≤ 10 + 2 * (["aaaaa".data, "bbbbb".data, "cccccccccc".data] : List (List Char)).length + 3) := by
  have h := C1_optimizer_packing ["aaaaa".data, "bbbbb".data, "cccccccccc".data] 10
    (by decide) (by decide)
  exact ⟨by decide, by decide, h.1⟩

/-! ## Streaming session (`src/web/backend/main.py`, `websocket_endpoint`)

One iteration of the `while True` receive loop is driven by an event:
the transport raises `WebSocketDisconnect`, or a message arrives and
streaming completes with a list of chunks, or a message arrives and some
step fails with a non-disconnect exception.  The loop's observable
effects are the texts sent over the socket and the `record_request`
calls made — the handler contains no call to the metrics collector, so
the recorded-metrics channel of the embedding is always empty. -/

/-- What happens on one iteration of the receive loop. -/
inductive TurnEvent where
  /-- `receive_text` raises `WebSocketDisconnect`. -/
  | disconnect
  /-- A message arrives and `astream` yields the given chunks. -/
  | message (data : String) (chunks : List String)
  /-- A message arrives but the turn fails mid-processing with the given
  exception text (any non-disconnect exception: retrieval, inference or
  history handling). -/
  | failure (data : String) (err : String)
  deriving Repr, DecidableEq

/-- Observable effects of one loop iteration. -/
structure TurnOutput where
  sent : List String
  metricsRecorded : List String
  deriving Repr, DecidableEq

/-- One iteration of the loop body: `none` means the `break` on
`WebSocketDisconnect` ran; otherwise the updated conversation history is
kept and the loop continues. -/
def processTurn (history : List (String × String)) :
    TurnEvent → Option (List (String × String)) × TurnOutput
  | .disconnect => (none, ⟨[], []⟩)
  | .message data chunks =>
      (some (history ++ [("User", data), ("BOT", String.join chunks)]),
        ⟨chunks, []⟩)
  | .failure _ _ =>
      (some history,
        ⟨["An error occurred while processing your message. Please try again."], []⟩)

/-- Result of running a session over a finite event trace. -/
structure SessionRun where
  alive : Bool
  history : List (String × String)
  sent : List String
  metricsRecorded : List String
  deriving Repr, DecidableEq

/-- The `while True` loop over an event trace (events after a disconnect
are never processed). -/
def runSession : List (String × String) → List TurnEvent → SessionRun
  | history, [] => ⟨true, history, [], []⟩
  | history, ev :: rest =>
      match processTurn history ev with
      | (none, out) => ⟨false, history, out.sent, out.metricsRecorded⟩
      | (some h', out) =>
          let r := runSession h' rest
          ⟨r.alive, r.history, out.sent ++ r.sent,
            out.metricsRecorded ++ r.metricsRecorded⟩

/-- C7 counterexample: a session whose first turn fails keeps running and
emits the generic failure notice, but *no* failed-request metric is
recorded — the websocket handler never calls the metrics collector, so
the claim's "a failed-request metric is recorded with the error kind"
is false on this trace. -/
theorem C7_counterexample :
    (runSession [] [.failure "hi" "boom", .message "ok" ["x"]]).metricsRecorded = [] ∧
    (runSession [] [.failure "hi" "boom", .message "ok" ["x"]]).alive = true ∧
    (runSession [] [.failure "hi" "boom", .message "ok" ["x"]]).sent
      = ["An error occurred while processing your message. Please try again.", "x"] := by
  refine ⟨rfl, rfl, rfl⟩

/-- C7 amended: within one streaming chat session, a failing turn never
terminates the session — the generic failure notice is emitted, the
history is kept unchanged, no metric is recorded (the handler has no
metrics integration), and the loop returns to awaiting input; the
session ends exactly when a transport-level disconnect occurs. -/
theorem C7_session_survives_failures :
    (∀ (h : List (String × String)) (trace : List TurnEvent),
      (runSession h trace).alive = false ↔ TurnEvent.disconnect ∈ trace) ∧
    (∀ (h : List (String × String)) (d e : String),
      processTurn h (.failure d e)
        = (some h,
            ⟨["An error occurred while processing your message. Please try again."], []⟩)) := by
  constructor
  · intro h trace
    induction trace generalizing h with
    | nil => simp [runSession]
    | cons ev rest ih =>
        cases ev with
        | disconnect => simp [runSession, processTurn]
        | message data chunks =>
            rw [runSession]
            simp only [processTurn]
            rw [ih]
            simp
        | failure data err =>
            rw [runSession]
            simp only [processTurn]
            rw [ih]
            simp
  · intro h d e
    rfl

/-- Witness for C7's amended theorem: a concrete trace with one failing
turn stays alive, and one ending in a disconnect does not. -/
theorem C7_session_survives_failures_witness :
    (runSession [] [TurnEvent.failure "q" "boom", TurnEvent.disconnect]).alive = false ∧
    ¬ (runSession [] [TurnEvent.failure "q" "boom"]).alive = false := by
  constructor
  · exact (C7_session_survives_failures.1 [] [.failure "q" "boom", .disconnect]).mpr
      (by simp)
  · intro hcontra
    have := (C7_session_survives_failures.1 [] [.failure "q" "boom"]).mp hcontra
    simp at this

end ChatbotRAG
